import Mathlib

/-!
# Verification of the rs-stellar-base transaction assembly engine

A shallow embedding of the repository's core components, with proofs of the
specification's claims about them:

* fixed-length positional digit codecs (the arithmetic backbone of base-32
  and byte/integer conversions used by the textual address format);
* the checksummed textual address codec (strkey) for plain (`G...`) and
  muxed (`M...`) account addresses, and the repository's
  `decode_encode_muxed_account` functions built on it;
* the `create_account` and `account_merge` operation builders;
* liquidity-pool identifier derivation (`get_liquidity_pool_id`);
* the `TransactionBuilder` (`set_timeout`, `build`) together with the
  `Account` sequence-number state it mutates.

Machine integers are modelled as `Nat`/`Int` with explicit bounds where
overflow matters; Rust panics are modelled as `Option.none`; Rust `Result`
is modelled as `Except String`.
-/

namespace StellarBase

/-! ## Fixed-length positional digit codecs -/
/-- Big-endian digits of `n` in base `b`, exactly `k` digits (most
significant first, truncating above `b ^ k`). -/
def toDigits (b : Nat) : Nat → Nat → List Nat
  | 0, _ => []
  | k + 1, n => toDigits b k (n / b) ++ [n % b]

/-- Value of a big-endian digit list in base `b`. -/
def fromDigits (b : Nat) (ds : List Nat) : Nat :=
  ds.foldl (fun a d => a * b + d) 0

/-! ## Base-32 alphabet (RFC 4648 upper-case alphabet, as used by strkey) -/
def base32Alphabet : List Char := ("ABCDEFGHIJKLMNOPQRSTUVWXYZ234567").data

def valToChar (v : Nat) : Char := base32Alphabet.getD v 'A'

def idxOf (c : Char) : List Char → Option Nat
  | [] => none
  | a :: rest => if a = c then some 0 else (idxOf c rest).map (· + 1)

def charToVal (c : Char) : Option Nat := idxOf c base32Alphabet

/-! ## Option-valued traversal -/
def mapOption (f : α → Option β) : List α → Option (List β)
  | [] => some []
  | a :: rest =>
    match f a, mapOption f rest with
    | some b, some bs => some (b :: bs)
    | _, _ => none

/-! ## Base-32 encoding and strict decoding -/
/-- Number of unpadded base-32 characters for `d` bytes. -/
def b32CharCount (d : Nat) : Nat := (8 * d + 4) / 5

/-- Unpadded RFC 4648 base-32 encoding of a byte list. -/
def base32Encode (p : List Nat) : List Char :=
  let c := b32CharCount p.length
  (toDigits 32 c (fromDigits 256 p * 2 ^ (5 * c - 8 * p.length))).map valToChar

/-- Strict unpadded base-32 decoding: rejects non-alphabet characters,
lengths that cannot arise from an encoding, and non-zero padding bits, so
only canonical encodings are accepted. -/
def base32Decode (s : List Char) : Option (List Nat) :=
  if 5 * s.length % 8 < 5 then
    (mapOption charToVal s).bind fun ds =>
      if fromDigits 32 ds % 2 ^ (5 * s.length % 8) = 0 then
        some (toDigits 256 (5 * s.length / 8)
          (fromDigits 32 ds / 2 ^ (5 * s.length % 8)))
      else none
  else none

/-! ## CRC16-XModem checksum (the checksum of the strkey format) -/
/-- One shift round of CRC16-XModem over a 16-bit register. -/
def crc16Bit (crc : Nat) : Nat :=
  if Nat.testBit crc 15 then Nat.xor (crc * 2 % 65536) 4129
  else crc * 2 % 65536

/-- Absorb one byte into the CRC16-XModem register. -/
def crc16Step (crc b : Nat) : Nat :=
  crc16Bit (crc16Bit (crc16Bit (crc16Bit (crc16Bit (crc16Bit (crc16Bit
    (crc16Bit (Nat.xor crc (b % 256 * 256)))))))))

/-- CRC16-XModem of a byte sequence, initial value 0. -/
def crc16 (bytes : List Nat) : Nat := bytes.foldl crc16Step 0

/-- The two little-endian checksum bytes strkey appends. -/
def crcBytes (c : Nat) : List Nat := [c % 256, c / 256 % 256]

/-! ## Strkey: the versioned, checksummed textual address codec

Modelled from the spec: the repository delegates the textual address
format to the external `stellar_strkey` collaborator, which the spec
describes as a "versioned, checksummed, fixed-alphabet encoding" whose
decoder "must reject any input failing checksum or version-byte
validation". Layout: `base32(version byte ++ payload ++ crc16-LE)`. -/
def strkeyEncode (ver : Nat) (data : List Nat) : List Char :=
  base32Encode ((ver :: data) ++ crcBytes (crc16 (ver :: data)))

def strkeyDecode (s : List Char) : Option (Nat × List Nat) :=
  (base32Decode s).bind fun bytes =>
    match bytes with
    | ver :: rest =>
      if 2 ≤ rest.length then
        if rest.drop (rest.length - 2) =
            crcBytes (crc16 (ver :: rest.take (rest.length - 2))) then
          some (ver, rest.take (rest.length - 2))
        else none
      else none
    | [] => none

/-! ## String-level strkey API (the `stellar_strkey` collaborator)

Modelled from the spec: plain account addresses carry version byte
`6 <<< 3 = 48` over a 32-byte key; muxed addresses carry version byte
`12 <<< 3 = 96` over a 40-byte payload (32-byte key, then the 64-bit
sub-account id in big-endian). -/
def encodeCheck (ver : Nat) (data : List Nat) : String := ⟨strkeyEncode ver data⟩

def decodeCheck (s : String) : Option (Nat × List Nat) := strkeyDecode s.data

def publicKeyFromString (s : String) : Option (List Nat) :=
  match decodeCheck s with
  | some vd => if vd.1 = 48 ∧ vd.2.length = 32 then some vd.2 else none
  | none => none

def publicKeyToString (pk : List Nat) : String := encodeCheck 48 pk

def muxedFromString (s : String) : Option (List Nat × Nat) :=
  match decodeCheck s with
  | some vd =>
    if vd.1 = 96 ∧ vd.2.length = 40 then
      some (vd.2.take 32, fromDigits 256 (vd.2.drop 32))
    else none
  | none => none

def muxedToString (pk : List Nat) (id : Nat) : String :=
  encodeCheck 96 (pk ++ toDigits 256 8 id)

/-! ## XDR data model (the `stellar_xdr` collaborator, shallowly embedded) -/
namespace xdr

/-- `stellar_xdr::next::MuxedAccount`: either a bare Ed25519 key or a
muxed key with a 64-bit sub-account id. -/
inductive MuxedAccount
  | Ed25519 (pk : List Nat)
  | MuxedEd25519 (id : Nat) (pk : List Nat)
deriving DecidableEq

/-- `stellar_xdr::next::MuxedAccount::from_str`: accepts a `G...` address
(bare key) or an `M...` address (muxed). Modelled from the spec (§4.1). -/
def MuxedAccount.fromStr (s : String) : Option MuxedAccount :=
  match publicKeyFromString s with
  | some pk => some (.Ed25519 pk)
  | none =>
    match muxedFromString s with
    | some x => some (.MuxedEd25519 x.2 x.1)
    | none => none

/-- Well-formedness of the binary address value: 32 key bytes, and a
64-bit id on the muxed variant. -/
def MuxedAccount.wf : MuxedAccount → Prop
  | .Ed25519 pk => pk.length = 32 ∧ ∀ x ∈ pk, x < 256
  | .MuxedEd25519 id pk => (pk.length = 32 ∧ ∀ x ∈ pk, x < 256) ∧ id < 2 ^ 64

end xdr

/-! ## `src/utils/decode_encode_muxed_account.rs` -/
/-- `decode_address_fully_to_muxed_account`: strkey-muxed parse, then
rebuild the XDR muxed record (`unwrap` panic modelled as `none`). -/
def decode_address_fully_to_muxed_account (address : String) :
    Option xdr.MuxedAccount :=
  (muxedFromString address).map fun x => xdr.MuxedAccount.MuxedEd25519 x.2 x.1

/-- `decode_address_to_muxed_account_fix_for_g_address`: if the strkey
muxed parse succeeds, decode fully; otherwise fall back to
`xdr::MuxedAccount::from_str` (whose `unwrap` panic is `none`). -/
def decode_address_to_muxed_account_fix_for_g_address (address : String) :
    Option xdr.MuxedAccount :=
  if (muxedFromString address).isSome then
    decode_address_fully_to_muxed_account address
  else
    xdr.MuxedAccount.fromStr address

/-- `encode_muxed_account_to_address`: dispatch on the discriminant; the
muxed variant goes through `_encode_muxed_account_fully_to_address`. -/
def encode_muxed_account_to_address (m : xdr.MuxedAccount) : String :=
  match m with
  | .MuxedEd25519 id pk => muxedToString pk id
  | .Ed25519 pk => publicKeyToString pk

/-- `_encode_muxed_account_fully_to_address`: the Ed25519 variant is sent
back through `encode_muxed_account_to_address`; the muxed variant is
strkey-encoded from its key and id. -/
def _encode_muxed_account_fully_to_address (m : xdr.MuxedAccount) : String :=
  match m with
  | .Ed25519 pk => publicKeyToString pk
  | .MuxedEd25519 id pk => muxedToString pk id

/-! ## XDR operation records -/
namespace xdr

/-- `stellar_xdr::next::AccountId` (a `PublicKey` union with its single
Ed25519 arm holding the 32 raw key bytes). -/
structure AccountId where
  key : List Nat
deriving DecidableEq

/-- `stellar_xdr::next::Asset`: native, or credit alphanum-4/12 with
fixed-width code bytes and the issuer's 32 key bytes. -/
inductive Asset
  | Native
  | CreditAlphanum4 (code : List Nat) (issuer : List Nat)
  | CreditAlphanum12 (code : List Nat) (issuer : List Nat)
deriving DecidableEq

/-- `stellar_xdr::next::OperationBody`, restricted to the operation
kinds the given sources construct. -/
inductive OperationBody
  | CreateAccount (destination : AccountId) (starting_balance : Int)
  | AccountMerge (destination : MuxedAccount)
deriving DecidableEq

/-- `stellar_xdr::next::Operation`. -/
structure Operation where
  source_account : Option MuxedAccount
  body : OperationBody
deriving DecidableEq

end xdr

/-- `stellar_strkey::Strkey`, restricted to the variants the spec's
textual address format defines (plain `G` and muxed `M`). Modelled from
the spec (§3, §4.1). -/
inductive Strkey
  | PublicKeyEd25519 (pk : List Nat)
  | MuxedAccountEd25519 (pk : List Nat) (id : Nat)
deriving DecidableEq

/-- `stellar_strkey::Strkey::from_string`. -/
def Strkey.fromString (s : String) : Option Strkey :=
  match publicKeyFromString s with
  | some pk => some (.PublicKeyEd25519 pk)
  | none =>
    match muxedFromString s with
    | some x => some (.MuxedAccountEd25519 x.1 x.2)
    | none => none

/-! ## Operation builders (`src/op_list/`) -/
/-- The `operation::Operation` builder receiver; its `source` field is
the already-decoded optional per-operation source override (the struct
lives in `operation.rs`, outside the given sources; modelled from the
spec: operations carry "an optional per-operation source-address
override"). -/
structure Operation where
  source : Option xdr.MuxedAccount
deriving DecidableEq

/-- `Operation::create_account` (`src/op_list/create_account.rs`).
The outer `Option` is a panic (the source-override decode can panic);
`Except` is the function's `Result`. The destination must parse as the
`PublicKeyEd25519` strkey variant; `starting_balance` is passed through
into the record unexamined. -/
def Operation.create_account (destination : String) (starting_balance : Int)
    (source : Option String) : Option (Except String xdr.Operation) :=
  match Strkey.fromString destination with
  | some (Strkey.PublicKeyEd25519 pk) =>
    match source with
    | none => some (Except.ok
        ⟨none, xdr.OperationBody.CreateAccount ⟨pk⟩ starting_balance⟩)
    | some s =>
      match decode_address_to_muxed_account_fix_for_g_address s with
      | some ma => some (Except.ok
          ⟨some ma, xdr.OperationBody.CreateAccount ⟨pk⟩ starting_balance⟩)
      | none => none
  | some _ => some (Except.error ("destination is invalid"))
  | none => some (Except.error ("invalid destination"))

/-- `Operation::account_merge` (`src/op_list/account_merge.rs`). The
source's `match` binds its scrutinee with an irrefutable first pattern
(`account => account`), so its `_ => Err("destination is invalid")` arm
is not part of the function's semantics; what remains is the decode
(whose `unwrap` panic is the outer `none`) followed by `Ok`. -/
def Operation.account_merge (self : Operation) (destination : String) :
    Option (Except String xdr.Operation) :=
  (decode_address_to_muxed_account_fix_for_g_address destination).map fun muxed =>
    Except.ok ⟨self.source, xdr.OperationBody.AccountMerge muxed⟩

/-! ## Assets and liquidity-pool identifier derivation
(`src/get_liquidity_pool.rs`) -/
/-- The repository's `Asset` descriptor (`asset.rs`, outside the given
sources). Modelled from the spec: an asset has a kind, a code and an
issuer. -/
inductive Asset
  | native
  | creditAlphanum4 (code : String) (issuer : String)
  | creditAlphanum12 (code : String) (issuer : String)
deriving DecidableEq

/-- Fixed-width asset-code bytes rendered as text (padding zero bytes
trimmed). -/
def codeToString (code : List Nat) : String :=
  ⟨(code.takeWhile (· ≠ 0)).map Char.ofNat⟩

/-- `Asset::from_operation` (`asset.rs`, outside the given sources).
Modelled from the spec: converts the wire-format asset record back into
the descriptor, rendering the issuer key as its checksummed `G...`
text. -/
def Asset.from_operation : xdr.Asset → Asset
  | .Native => .native
  | .CreditAlphanum4 code issuer =>
    .creditAlphanum4 (codeToString code) (publicKeyToString issuer)
  | .CreditAlphanum12 code issuer =>
    .creditAlphanum12 (codeToString code) (publicKeyToString issuer)

def assetTypeRank : Asset → Nat
  | .native => 0
  | .creditAlphanum4 _ _ => 1
  | .creditAlphanum12 _ _ => 2

def Asset.code : Asset → String
  | .native => ""
  | .creditAlphanum4 code _ => code
  | .creditAlphanum12 code _ => code

def Asset.issuer : Asset → String
  | .native => ""
  | .creditAlphanum4 _ issuer => issuer
  | .creditAlphanum12 _ issuer => issuer

/-- Three-way string comparison. -/
def strCmp (a b : String) : Int :=
  if a < b then -1 else if a = b then 0 else 1

/-- `Asset::compare` (`asset.rs`, outside the given sources). Modelled
from the spec: "a total, kind-then-code-then-issuer lexicographic
ordering (the canonical ordering)", returning -1/0/1. -/
def Asset.compare (a b : Asset) : Int :=
  if assetTypeRank a < assetTypeRank b then -1
  else if assetTypeRank b < assetTypeRank a then 1
  else if strCmp a.code b.code ≠ 0 then strCmp a.code b.code
  else strCmp a.issuer b.issuer

/-- `stellar_xdr::next::LiquidityPoolConstantProductParameters`. -/
structure LiquidityPoolConstantProductParameters where
  asset_a : xdr.Asset
  asset_b : xdr.Asset
  fee : Int
deriving DecidableEq

/-- `stellar_xdr::next::LiquidityPoolParameters` (single-variant
union). -/
inductive LiquidityPoolParameters
  | LiquidityPoolConstantProduct (params : LiquidityPoolConstantProductParameters)
deriving DecidableEq

/-- XDR int32 big-endian two's-complement bytes. Modelled from the spec
(§6: canonical binary wire format, via the collaborator codec). -/
def int32ToBytes (i : Int) : List Nat :=
  toDigits 256 4 (i % (2 ^ 32 : Int)).toNat

/-- XDR bytes of an `Asset` union value: 4-byte discriminant, then the
fixed-width code bytes, then the issuer `AccountId` (`PublicKey` union
discriminant 0 and the 32 key bytes). -/
def assetToXdr : xdr.Asset → List Nat
  | .Native => [0, 0, 0, 0]
  | .CreditAlphanum4 code issuer =>
    [0, 0, 0, 1] ++ code ++ ([0, 0, 0, 0] ++ issuer)
  | .CreditAlphanum12 code issuer =>
    [0, 0, 0, 2] ++ code ++ ([0, 0, 0, 0] ++ issuer)

/-- XDR bytes of `LiquidityPoolType::LiquidityPoolConstantProduct`
(enum discriminant 0). -/
def liquidityPoolTypeXdr : List Nat := [0, 0, 0, 0]

/-- XDR bytes of `LiquidityPoolConstantProductParameters`: asset A,
asset B, then the int32 fee, concatenated in that order. -/
def lpConstantProductParamsXdr
    (p : LiquidityPoolConstantProductParameters) : List Nat :=
  assetToXdr p.asset_a ++ assetToXdr p.asset_b ++ int32ToBytes p.fee

def LIQUIDITY_POOL_FEE_V18 : Int := 30

structure LiquidityPool where
deriving DecidableEq

/-- `LiquidityPool::get_liquidity_pool_id` (`src/get_liquidity_pool.rs`),
parametric in the collaborator hash primitive (spec §6). Checks the pool
type, then the fee, then the canonical asset ordering, and on success
hashes the pool-type bytes followed by the parameter-record bytes. -/
def LiquidityPool.get_liquidity_pool_id (hash : List Nat → List Nat)
    (liquidity_pool_type : String)
    (liquidity_pool_parameters : LiquidityPoolParameters) :
    Except String (List Nat) :=
  if liquidity_pool_type ≠ "constant_product" then
    Except.error ("liquidityPoolType is invalid")
  else
    match liquidity_pool_parameters with
    | .LiquidityPoolConstantProduct px =>
      if px.fee ≠ LIQUIDITY_POOL_FEE_V18 then
        Except.error ("fee is invalid")
      else if Asset.compare (Asset.from_operation px.asset_a)
          (Asset.from_operation px.asset_b) ≠ -1 then
        Except.error ("Assets are not in lexicographic order")
      else
        Except.ok (hash (liquidityPoolTypeXdr ++ lpConstantProductParamsXdr px))

/-! ## Account state -/
/-- `Account` (`account.rs`, outside the given sources). Modelled from
the spec: "holds an address and a decimal-string sequence number
(arbitrary precision)". The arbitrary-precision value of that decimal
string is carried as a `Nat` (the state space of valid accounts, whose
stored strings parse); its decimal text is recovered by `toString`. -/
structure Account where
  account_id : String
  sequence : Nat
deriving DecidableEq

/-- `Account::sequence_number`: the stored decimal string. -/
def Account.sequence_number (a : Account) : String := toString a.sequence

/-- `Account::increment_sequence_number` (`account.rs`, outside the
given sources). Modelled from the spec: the sequence "is incremented by
exactly one each time it is consumed by a builder", through an
arbitrary-precision decimal-string incrementer. -/
def Account.increment_sequence_number (a : Account) : Account :=
  { a with sequence := a.sequence + 1 }

/-! ## Remaining XDR envelope records -/
namespace xdr

/-- `stellar_xdr::next::TimeBounds` (`TimePoint`s as plain naturals). -/
structure TimeBounds where
  min_time : Nat
  max_time : Nat
deriving DecidableEq

/-- `stellar_xdr::next::Memo`, restricted to the arms the given sources
construct. -/
inductive Memo
  | None
  | Text (text : String)
  | Id (id : Nat)
deriving DecidableEq

/-- `stellar_xdr::next::Preconditions`, restricted to the arms relevant
here. -/
inductive Preconditions
  | None
  | Time (time_bounds : TimeBounds)
deriving DecidableEq

inductive TransactionExt
  | V0
deriving DecidableEq

/-- `stellar_xdr::next::Transaction` (the inner wire-format record). -/
structure Transaction where
  source_account : MuxedAccount
  fee : Nat
  seq_num : Int
  cond : Preconditions
  memo : Memo
  operations : List Operation
  ext : TransactionExt
deriving DecidableEq

end xdr

/-! ## The wrapper `Transaction` and the `TransactionBuilder`
(`src/transaction_builder.rs`) -/
/-- The crate's wrapper `Transaction` (`transaction.rs`; its fields and
the values they receive are visible at the construction site in
`TransactionBuilder::build`, lines 175-192). Signature-related fields,
which `build` fills with constants outside this verification's scope,
are omitted. -/
structure Transaction where
  tx : Option xdr.Transaction
  network_passphrase : String
  fee : Nat
  memo : Option xdr.Memo
  sequence : String
  source : String
  time_bounds : Option xdr.TimeBounds
  min_account_sequence : Option String
  min_account_sequence_age : Nat
  min_account_sequence_ledger_gap : Nat
  operations : Option (List xdr.Operation)
deriving DecidableEq

/-- `TransactionBuilder` scratch state. The source account is held by
value and `build` returns its post-call state, standing in for the
source's shared `Rc<RefCell<Account>>` cell (spec §9 endorses this
ownership-passing reading). Fields never read by the embedded
operations (`tx`, `signatures`, `envelope_type`, ledger bounds,
min-sequence extras, extra signers) are omitted. -/
structure TransactionBuilder where
  network_passphrase : Option String
  fee : Option Nat
  memo : Option xdr.Memo
  sequence : Option String
  source : Option Account
  time_bounds : Option xdr.TimeBounds
  operations : Option (List xdr.Operation)
deriving DecidableEq

/-- `TransactionBuilder::new`. -/
def TransactionBuilder.new (source_account : Account) (network : String)
    (time_bounds : Option xdr.TimeBounds) : TransactionBuilder :=
  { network_passphrase := some network
    fee := none
    memo := none
    sequence := none
    source := some source_account
    time_bounds := time_bounds
    operations := some [] }

/-- `TransactionBuilder::fee` (the setter; the Rust argument is `u32`,
so callers only ever supply values below `2 ^ 32`). -/
def TransactionBuilder.fee_set (b : TransactionBuilder) (fee : Nat) :
    TransactionBuilder :=
  { b with fee := some fee }

/-- `TransactionBuilder::add_operation`: pushes onto the operation list
when one is present. -/
def TransactionBuilder.add_operation (b : TransactionBuilder)
    (operation : xdr.Operation) : TransactionBuilder :=
  { b with operations := b.operations.map (· ++ [operation]) }

/-- `TransactionBuilder::set_time_bounds`. -/
def TransactionBuilder.set_time_bounds (b : TransactionBuilder)
    (time_bounds : xdr.TimeBounds) : TransactionBuilder :=
  { b with time_bounds := some time_bounds }

/-- The tail of `set_timeout` after the existing-max-time guard:
negativity check, then either "now + seconds" (preserving any existing
min time) or the zero bounds for an infinite timeout. -/
def setTimeoutTail (b : TransactionBuilder) (current_time : Nat)
    (timeout_seconds : Int) : Except String TransactionBuilder :=
  if timeout_seconds < 0 then
    Except.error ("timeout cannot be negative")
  else if timeout_seconds > 0 then
    let tb : xdr.TimeBounds :=
      { min_time := (b.time_bounds.map fun tb => tb.min_time).getD 0,
        max_time := current_time + timeout_seconds.toNat }
    Except.ok { b with time_bounds := some tb }
  else
    Except.ok { b with time_bounds := some { min_time := 0, max_time := 0 } }

/-- `TransactionBuilder::set_timeout`, with the ambient clock passed
explicitly (`SystemTime::now` seconds since the epoch). -/
def TransactionBuilder.set_timeout (b : TransactionBuilder)
    (current_time : Nat) (timeout_seconds : Int) :
    Except String TransactionBuilder :=
  match b.time_bounds with
  | some timebounds =>
    if timebounds.max_time > 0 then
      Except.error
        ("TimeBounds.max_time has been already set - setting timeout would overwrite it.")
    else setTimeoutTail b current_time timeout_seconds
  | none => setTimeoutTail b current_time timeout_seconds

/-- Lower-case hex digits. -/
def hexDigitChar (n : Nat) : Char := ("0123456789abcdef").data.getD n '0'

/-- Byte values of a string's characters (`str::as_bytes`; identical to
the UTF-8 bytes for the ASCII account ids this code handles). -/
def stringBytes (s : String) : List Nat := s.data.map Char.toNat

/-- `hex::encode`. -/
def hexEncode (bytes : List Nat) : List Char :=
  bytes.flatMap fun b => [hexDigitChar (b / 16 % 16), hexDigitChar (b % 16)]

/-- `TransactionBuilder::build`. Returns the built transaction (`none`
for each of the source's panic points, in source order) paired with the
source account's state as of the call's exit — the increment committed
at line 151 persists through any later panic, because the account lives
in a shared `Rc<RefCell<...>>` cell. Panic points in order: missing
source (line 147), missing fee (157), operation count above `u32`
(159), account-id hex shorter than 32 characters (164), fee overflow
(168), more than 100 operations (172), missing network passphrase
(177). (The `BigUint::from_str` of line 149 re-reads the decimal render
of the account's sequence and is the identity on the `Nat`-carried
sequence value, so it has no failure arm here.) -/
def TransactionBuilder.build (b : TransactionBuilder) :
    Option Transaction × Option Account :=
  match b.source with
  | none => (none, none)
  | some source_ref =>
      let current_seq_num := source_ref.sequence
      let incremented_seq_num := current_seq_num + 1
      let source_ref' := source_ref.increment_sequence_number
      match b.fee with
        | none => (none, some source_ref')
        | some base_fee =>
          match b.operations with
          | none => (none, some source_ref')
          | some ops =>
            if ops.length ≥ 2 ^ 32 then (none, some source_ref')
            else
              let fee := if base_fee * ops.length < 2 ^ 32 then
                some (base_fee * ops.length) else none
              let hexChars := hexEncode (stringBytes source_ref.account_id)
              if hexChars.length < 32 then (none, some source_ref')
              else
                match fee with
                | none => (none, some source_ref')
                | some fee_val =>
                  if ops.length > 100 then (none, some source_ref')
                  else
                    match b.network_passphrase with
                    | none => (none, some source_ref')
                    | some np =>
                      (some
                        { tx := some
                            { source_account := xdr.MuxedAccount.Ed25519
                                ((hexChars.take 32).map Char.toNat)
                              fee := fee_val
                              seq_num := 1
                              cond := xdr.Preconditions.None
                              memo := xdr.Memo.None
                              operations := ops
                              ext := xdr.TransactionExt.V0 }
                          network_passphrase := np
                          fee := fee_val
                          memo := none
                          sequence := toString incremented_seq_num
                          source := source_ref.account_id
                          time_bounds := b.time_bounds
                          min_account_sequence := some ("0")
                          min_account_sequence_age := 0
                          min_account_sequence_ledger_gap := 0
                          operations := b.operations },
                        some source_ref')

/-- The transaction component of `build`'s outcome (`none` = panic). -/
def TransactionBuilder.buildResult (b : TransactionBuilder) :
    Option Transaction := b.build.1

/-- The source account's state when `build` returns or unwinds. -/
def TransactionBuilder.accountAfterBuild (b : TransactionBuilder) :
    Option Account := b.build.2

/-! ## Concrete fixtures -/
def acctDemo : Account :=
  { account_id := "GBBM6BKZPEHWYO3E3YKREDPQXMS4VK35YLNU7NFBRI26RAN7GI5POFBB",
    sequence := 20 }

def opDemo : xdr.Operation :=
  { source_account := none,
    body := xdr.OperationBody.AccountMerge
      (xdr.MuxedAccount.Ed25519 (List.replicate 32 1)) }

def emptyTransaction : Transaction :=
  { tx := none, network_passphrase := "", fee := 0, memo := none,
    sequence := "", source := "", time_bounds := none,
    min_account_sequence := none, min_account_sequence_age := 0,
    min_account_sequence_ledger_gap := 0, operations := none }

def builderDemo : TransactionBuilder :=
  ((TransactionBuilder.new acctDemo ("Test SDF Network ; September 2015")
    none).fee_set 100).add_operation opDemo

def txDemo : Transaction := builderDemo.buildResult.getD emptyTransaction

def acctTwo : Account :=
  { account_id := "GCEZWKCA5VLDNRLN3RPRJMRZOX3Z6G5CHCGSNFHEYVXM3XOJMDS674JZ",
    sequence := 0 }

def builderTwoOps : TransactionBuilder :=
  (((TransactionBuilder.new acctTwo ("Test SDF Network ; September 2015")
    none).fee_set 100).add_operation opDemo).add_operation opDemo

def acctOverflow : Account :=
  { account_id := "GDJJRRMBK4IWLEPJGIE6SXD2LP7REGZODU7WDC3I2D6MR37F4XSHBKX2",
    sequence := 5 }

def builderOverflow : TransactionBuilder :=
  (((TransactionBuilder.new acctOverflow ("Test SDF Network ; September 2015")
    none).fee_set (2 ^ 31)).add_operation opDemo).add_operation opDemo

def acctNoFee : Account :=
  { account_id := "GC6ACGSA2NJGD6YWUNX2BYBL3VM4MZRSEU2RLIUZZL35NLV5IAHAX2E2",
    sequence := 7 }

def builderNoFee : TransactionBuilder :=
  (TransactionBuilder.new acctNoFee ("Test SDF Network ; September 2015")
    none).add_operation opDemo

def acctNine : Account :=
  { account_id := "GDJJRRMBK4IWLEPJGIE6SXD2LP7REGZODU7WDC3I2D6MR37F4XSHBKX3",
    sequence := 41 }

def builderNine : TransactionBuilder :=
  { ((TransactionBuilder.new acctNine
      ("Public Global Stellar Network ; September 2015")
      (some ⟨5, 700⟩)).fee_set 100).add_operation opDemo with
    memo := some (xdr.Memo.Id 100) }

def txNine : Transaction := builderNine.buildResult.getD emptyTransaction

def emptyInnerTx : xdr.Transaction :=
  { source_account := xdr.MuxedAccount.Ed25519 [], fee := 0, seq_num := 0,
    cond := xdr.Preconditions.None, memo := xdr.Memo.None,
    operations := [], ext := xdr.TransactionExt.V0 }

def innerNine : xdr.Transaction := txNine.tx.getD emptyInnerTx

/-! ## Claim theorems: set_timeout, liquidity pools, operations -/
def builderWithBounds : TransactionBuilder :=
  TransactionBuilder.new acctTwo ("Test SDF Network ; September 2015")
    (some ⟨1455287522, 1455297545⟩)

def pxDemo : LiquidityPoolConstantProductParameters :=
  { asset_a := xdr.Asset.Native,
    asset_b := xdr.Asset.CreditAlphanum4 [65, 66, 67, 68]
      (List.replicate 32 0),
    fee := 30 }

/-! ## Claim theorems: create_account and account_merge -/
instance {α β : Type} [DecidableEq α] [DecidableEq β] :
    DecidableEq (Except α β) := fun x y =>
  match x, y with
  | .ok a, .ok b =>
    if h : a = b then isTrue (by rw [h])
    else isFalse (fun he => h (Except.ok.inj he))
  | .error a, .error b =>
    if h : a = b then isTrue (by rw [h])
    else isFalse (fun he => h (Except.error.inj he))
  | .ok _, .error _ => isFalse (fun he => Except.noConfusion he)
  | .error _, .ok _ => isFalse (fun he => Except.noConfusion he)

def gAddrZero : String := publicKeyToString (List.replicate 32 0)

theorem toDigits_length (b k n : Nat) : (toDigits b k n).length = k := by
  induction k generalizing n with
  | zero => rfl
  | succ k ih => simp [toDigits, ih]

theorem toDigits_lt (b k n : Nat) (hb : 0 < b) :
    ∀ d ∈ toDigits b k n, d < b := by
  induction k generalizing n with
  | zero => intro d hd; simp [toDigits] at hd
  | succ k ih =>
    intro d hd
    simp only [toDigits, List.mem_append, List.mem_singleton] at hd
    rcases hd with hd | hd
    · exact ih _ _ hd
    · subst hd; exact Nat.mod_lt _ hb

theorem fromDigits_aux (b : Nat) (ds : List Nat) (a : Nat) :
    ds.foldl (fun a d => a * b + d) a = a * b ^ ds.length + fromDigits b ds := by
  induction ds generalizing a with
  | nil => simp [fromDigits]
  | cons d ds ih =>
    simp only [List.foldl_cons, fromDigits, List.length_cons]
    rw [ih (a * b + d), ih (0 * b + d)]
    ring

theorem fromDigits_append (b : Nat) (xs ys : List Nat) :
    fromDigits b (xs ++ ys) = fromDigits b xs * b ^ ys.length + fromDigits b ys := by
  simp only [fromDigits, List.foldl_append]
  rw [fromDigits_aux]
  rfl

theorem fromDigits_toDigits (b k n : Nat) :
    fromDigits b (toDigits b k n) = n % b ^ k := by
  induction k generalizing n with
  | zero => simp [toDigits, fromDigits, Nat.mod_one]
  | succ k ih =>
    simp only [toDigits]
    rw [fromDigits_append, ih]
    simp only [fromDigits, List.length_cons, List.length_nil, List.foldl_cons,
      List.foldl_nil, pow_one, Nat.zero_mul, Nat.zero_add]
    rw [pow_succ, Nat.mul_comm (b ^ k) b, Nat.mod_mul]
    ring

theorem fromDigits_lt (b : Nat) (ds : List Nat) (hb : 0 < b)
    (h : ∀ d ∈ ds, d < b) : fromDigits b ds < b ^ ds.length := by
  induction ds using List.reverseRecOn with
  | nil => simp [fromDigits]
  | append_singleton xs d ih =>
    rw [fromDigits_append]
    simp only [List.length_append, List.length_cons, List.length_nil]
    have hd : d < b := h d (by simp)
    have hxs : fromDigits b xs < b ^ xs.length :=
      ih (fun x hx => h x (by simp [hx]))
    have h1 : fromDigits b xs * b ^ 1 + fromDigits b [d] ≤
        (b ^ xs.length - 1) * b + (b - 1) := by
      have : fromDigits b [d] = d := by simp [fromDigits]
      rw [this, pow_one]
      have hle : fromDigits b xs ≤ b ^ xs.length - 1 := by omega
      exact Nat.add_le_add (Nat.mul_le_mul_right b hle) (by omega)
    calc fromDigits b xs * b ^ [d].length + fromDigits b [d]
        ≤ (b ^ xs.length - 1) * b + (b - 1) := by
          simpa using h1
      _ < b ^ (xs.length + 1) := by
          have hpos : 0 < b ^ xs.length := Nat.pos_pow_of_pos _ hb
          rw [pow_succ]
          calc (b ^ xs.length - 1) * b + (b - 1)
              < (b ^ xs.length - 1) * b + b := by omega
            _ = b ^ xs.length * b - b + b := by
                rw [Nat.sub_mul, Nat.one_mul]
            _ = b ^ xs.length * b := by
                have : b ≤ b ^ xs.length * b := Nat.le_mul_of_pos_left b hpos
                omega

theorem toDigits_fromDigits (b : Nat) (ds : List Nat)
    (h : ∀ d ∈ ds, d < b) :
    toDigits b ds.length (fromDigits b ds) = ds := by
  induction ds using List.reverseRecOn with
  | nil => simp [toDigits, fromDigits]
  | append_singleton xs d ih =>
    have hd : d < b := h d (by simp)
    have hb : 0 < b := Nat.pos_of_ne_zero (by omega)
    have hxs : ∀ x ∈ xs, x < b := fun x hx => h x (by simp [hx])
    rw [fromDigits_append]
    simp only [List.length_append, List.length_cons, List.length_nil,
      Nat.add_zero, Nat.zero_add]
    have hfd : fromDigits b [d] = d := by simp [fromDigits]
    rw [hfd, pow_one]
    show toDigits b (xs.length + 1) (fromDigits b xs * b + d) = xs ++ [d]
    simp only [toDigits]
    have hdiv : (b * fromDigits b xs + d) / b = fromDigits b xs := by
      rw [Nat.mul_add_div hb, Nat.div_eq_of_lt hd, Nat.add_zero]
    have hmod : (b * fromDigits b xs + d) % b = d := by
      rw [Nat.mul_add_mod, Nat.mod_eq_of_lt hd]
    rw [Nat.mul_comm (fromDigits b xs) b, hdiv, hmod, ih hxs]

theorem idxOf_lt_length (c : Char) (l : List Char) (i : Nat)
    (h : idxOf c l = some i) : i < l.length := by
  induction l generalizing i with
  | nil => simp [idxOf] at h
  | cons a rest ih =>
    simp only [idxOf] at h
    split at h
    · simp only [Option.some.injEq] at h
      simp [← h]
    · match hrest : idxOf c rest with
      | some j =>
        rw [hrest] at h
        have h2 : j + 1 = i := Option.some.inj h
        have := ih j hrest
        simp only [List.length_cons]
        omega
      | none => rw [hrest] at h; simp at h

theorem idxOf_getD (c dflt : Char) (l : List Char) (i : Nat)
    (h : idxOf c l = some i) : l.getD i dflt = c := by
  induction l generalizing i with
  | nil => simp [idxOf] at h
  | cons a rest ih =>
    simp only [idxOf] at h
    split at h
    · simp only [Option.some.injEq] at h
      subst h
      rw [List.getD_cons_zero]
      assumption
    · match hrest : idxOf c rest with
      | some j =>
        rw [hrest] at h
        have h2 : j + 1 = i := Option.some.inj h
        subst h2
        rw [List.getD_cons_succ]
        exact ih j hrest
      | none => rw [hrest] at h; simp at h

theorem idxOf_getD_self (dflt : Char) (l : List Char) (hnd : l.Nodup) :
    ∀ i < l.length, idxOf (l.getD i dflt) l = some i := by
  induction l with
  | nil => intro i hi; simp at hi
  | cons a rest ih =>
    intro i hi
    rcases List.nodup_cons.mp hnd with ⟨hna, hnr⟩
    cases i with
    | zero => simp [idxOf, List.getD]
    | succ j =>
      simp only [List.length_cons, Nat.succ_lt_succ_iff] at hi
      have hmem : rest.getD j dflt ∈ rest := by
        rw [List.getD_eq_getElem rest dflt hi]
        exact List.getElem_mem hi
      have hne : a ≠ rest.getD j dflt := fun he => hna (he ▸ hmem)
      rw [List.getD_cons_succ]
      show idxOf (rest.getD j dflt) (a :: rest) = some (j + 1)
      simp only [idxOf]
      rw [if_neg hne, ih hnr j hi]
      rfl

theorem base32Alphabet_nodup : base32Alphabet.Nodup := by decide

theorem charToVal_lt (c : Char) (v : Nat) (h : charToVal c = some v) :
    v < 32 := by
  have := idxOf_lt_length c base32Alphabet v h
  simpa [base32Alphabet] using this

theorem charToVal_valToChar (v : Nat) (hv : v < 32) :
    charToVal (valToChar v) = some v :=
  idxOf_getD_self 'A' base32Alphabet base32Alphabet_nodup v
    (by simpa [base32Alphabet] using hv)

theorem valToChar_charToVal (c : Char) (v : Nat) (h : charToVal c = some v) :
    valToChar v = c :=
  idxOf_getD c 'A' base32Alphabet v h

theorem mapOption_map (f : β → Option α) (g : α → β) (l : List α)
    (h : ∀ a ∈ l, f (g a) = some a) :
    mapOption f (l.map g) = some l := by
  induction l with
  | nil => rfl
  | cons a rest ih =>
    simp only [List.map_cons, mapOption]
    rw [h a (by simp), ih (fun x hx => h x (by simp [hx]))]

theorem mapOption_length (f : α → Option β) (l : List α) (bs : List β)
    (h : mapOption f l = some bs) : bs.length = l.length := by
  induction l generalizing bs with
  | nil =>
    simp only [mapOption, Option.some.injEq] at h
    subst h; rfl
  | cons a rest ih =>
    simp only [mapOption] at h
    match hfa : f a, hrest : mapOption f rest with
    | some b, some bs₂ =>
      rw [hfa, hrest] at h
      simp only [Option.some.injEq] at h
      subst h
      simp [ih bs₂ hrest]
    | some _, none => rw [hfa, hrest] at h; simp at h
    | none, _ => rw [hfa] at h; simp at h

theorem mapOption_forall (f : α → Option β) (P : β → Prop)
    (hP : ∀ a b, f a = some b → P b) (l : List α) (bs : List β)
    (h : mapOption f l = some bs) : ∀ b ∈ bs, P b := by
  induction l generalizing bs with
  | nil =>
    simp only [mapOption, Option.some.injEq] at h
    subst h
    intro b hb
    simp at hb
  | cons a rest ih =>
    simp only [mapOption] at h
    match hfa : f a, hrest : mapOption f rest with
    | some b, some bs₂ =>
      rw [hfa, hrest] at h
      simp only [Option.some.injEq] at h
      subst h
      intro x hx
      rcases List.mem_cons.mp hx with hx | hx
      · exact hx ▸ hP a b hfa
      · exact ih bs₂ hrest x hx
    | some _, none => rw [hfa, hrest] at h; simp at h
    | none, _ => rw [hfa] at h; simp at h

theorem mapOption_inv (f : α → Option β) (g : β → α)
    (hg : ∀ a b, f a = some b → g b = a) (l : List α) (bs : List β)
    (h : mapOption f l = some bs) : bs.map g = l := by
  induction l generalizing bs with
  | nil =>
    simp only [mapOption, Option.some.injEq] at h
    subst h; rfl
  | cons a rest ih =>
    simp only [mapOption] at h
    match hfa : f a, hrest : mapOption f rest with
    | some b, some bs₂ =>
      rw [hfa, hrest] at h
      simp only [Option.some.injEq] at h
      subst h
      simp [hg a b hfa, ih bs₂ hrest]
    | some _, none => rw [hfa, hrest] at h; simp at h
    | none, _ => rw [hfa] at h; simp at h

theorem base32Encode_length (p : List Nat) :
    (base32Encode p).length = b32CharCount p.length := by
  simp [base32Encode, toDigits_length]

theorem base32Decode_encode (p : List Nat) (hp : ∀ x ∈ p, x < 256) :
    base32Decode (base32Encode p) = some p := by
  have hb : 8 * p.length ≤ 5 * b32CharCount p.length ∧
      5 * b32CharCount p.length ≤ 8 * p.length + 4 := by
    unfold b32CharCount; omega
  have hNlt : fromDigits 256 p < 2 ^ (8 * p.length) := by
    have h1 : fromDigits 256 p < 256 ^ p.length :=
      fromDigits_lt 256 p (by norm_num) hp
    rwa [show (256 : Nat) = 2 ^ 8 by norm_num, ← pow_mul] at h1
  have hMlt : fromDigits 256 p * 2 ^ (5 * b32CharCount p.length - 8 * p.length)
      < 32 ^ b32CharCount p.length := by
    calc fromDigits 256 p * 2 ^ (5 * b32CharCount p.length - 8 * p.length)
        < 2 ^ (8 * p.length) * 2 ^ (5 * b32CharCount p.length - 8 * p.length) :=
          Nat.mul_lt_mul_of_lt_of_le hNlt (Nat.le_refl _)
            (Nat.pos_pow_of_pos _ (by norm_num))
      _ = 2 ^ (8 * p.length + (5 * b32CharCount p.length - 8 * p.length)) := by
          rw [← pow_add]
      _ = 2 ^ (5 * b32CharCount p.length) := by
          congr 1; omega
      _ = 32 ^ b32CharCount p.length := by
          rw [show (32 : Nat) = 2 ^ 5 by norm_num, ← pow_mul]
  have hds : ∀ x ∈ toDigits 32 (b32CharCount p.length)
      (fromDigits 256 p * 2 ^ (5 * b32CharCount p.length - 8 * p.length)),
      x < 32 := toDigits_lt 32 _ _ (by norm_num)
  have hsplit : 5 * b32CharCount p.length =
      8 * p.length + (5 * b32CharCount p.length - 8 * p.length) := by omega
  have hm8 : 5 * b32CharCount p.length % 8 =
      5 * b32CharCount p.length - 8 * p.length := by
    rw [hsplit, Nat.mul_add_mod]
    omega
  have hd8 : 5 * b32CharCount p.length / 8 = p.length := by
    rw [hsplit, Nat.mul_add_div (by norm_num : 0 < 8)]
    omega
  rw [show base32Encode p = (toDigits 32 (b32CharCount p.length)
      (fromDigits 256 p *
        2 ^ (5 * b32CharCount p.length - 8 * p.length))).map valToChar from rfl]
  unfold base32Decode
  rw [List.length_map, toDigits_length]
  rw [if_pos (by rw [hm8]; omega : 5 * b32CharCount p.length % 8 < 5)]
  rw [mapOption_map charToVal valToChar _
    (fun a ha => charToVal_valToChar a (hds a ha))]
  rw [Option.some_bind]
  show (if fromDigits 32 (toDigits 32 (b32CharCount p.length)
        (fromDigits 256 p * 2 ^ (5 * b32CharCount p.length - 8 * p.length))) %
        2 ^ (5 * b32CharCount p.length % 8) = 0 then
      some (toDigits 256 (5 * b32CharCount p.length / 8)
        (fromDigits 32 (toDigits 32 (b32CharCount p.length)
          (fromDigits 256 p *
            2 ^ (5 * b32CharCount p.length - 8 * p.length))) /
          2 ^ (5 * b32CharCount p.length % 8)))
    else none) = some p
  rw [fromDigits_toDigits, Nat.mod_eq_of_lt hMlt]
  rw [hm8, hd8]
  rw [if_pos (Nat.mul_mod_left (fromDigits 256 p)
    (2 ^ (5 * b32CharCount p.length - 8 * p.length)))]
  rw [Nat.mul_div_cancel (fromDigits 256 p)
    (Nat.pos_pow_of_pos _ (by norm_num : 0 < 2))]
  rw [toDigits_fromDigits 256 p hp]

theorem base32Encode_decode (s : List Char) (p : List Nat)
    (h : base32Decode s = some p) : base32Encode p = s := by
  by_cases hlt : 5 * s.length % 8 < 5
  · rw [base32Decode, if_pos hlt] at h
    match hmo : mapOption charToVal s with
    | none => rw [hmo] at h; simp at h
    | some ds =>
      rw [hmo] at h
      simp only [Option.some_bind] at h
      split at h
      case isTrue hzero =>
        have hp : p = toDigits 256 (5 * s.length / 8)
            (fromDigits 32 ds / 2 ^ (5 * s.length % 8)) :=
          (Option.some.inj h).symm
        have hlen : ds.length = s.length := mapOption_length charToVal s ds hmo
        have hds32 : ∀ v ∈ ds, v < 32 :=
          mapOption_forall charToVal (· < 32) charToVal_lt s ds hmo
        have hmap : ds.map valToChar = s :=
          mapOption_inv charToVal valToChar valToChar_charToVal s ds hmo
        set n := s.length with hn
        set pad := 5 * n % 8 with hpaddef
        set nb := 5 * n / 8 with hnbdef
        have h5n : 5 * n = 8 * nb + pad := by omega
        set M := fromDigits 32 ds with hMdef
        have hMlt : M < 2 ^ (5 * n) := by
          have h1 : M < 32 ^ ds.length := fromDigits_lt 32 ds (by norm_num) hds32
          calc M < 32 ^ ds.length := h1
            _ = 2 ^ (5 * n) := by
              rw [show (32 : Nat) = 2 ^ 5 by norm_num, ← pow_mul, hlen]
        have hdivlt : M / 2 ^ pad < 2 ^ (8 * nb) := by
          rw [Nat.div_lt_iff_lt_mul (Nat.pos_pow_of_pos _ (by norm_num : 0 < 2))]
          calc M < 2 ^ (5 * n) := hMlt
            _ = 2 ^ (8 * nb) * 2 ^ pad := by rw [← pow_add, ← h5n]
        have hplen : p.length = nb := by rw [hp]; exact toDigits_length _ _ _
        have hpbytes : ∀ x ∈ p, x < 256 := by
          rw [hp]; exact toDigits_lt _ _ _ (by norm_num)
        have hcc : b32CharCount p.length = n := by
          rw [hplen]; unfold b32CharCount; omega
        have hpade : 5 * b32CharCount p.length - 8 * p.length = pad := by
          rw [hcc, hplen]; omega
        have hNval : fromDigits 256 p = M / 2 ^ pad := by
          rw [hp]
          rw [fromDigits_toDigits]
          rw [show (256 : Nat) ^ (5 * s.length / 8) = 2 ^ (8 * nb) by
            rw [show (256 : Nat) = 2 ^ 8 by norm_num, ← pow_mul]]
          exact Nat.mod_eq_of_lt hdivlt
        have hback : fromDigits 256 p * 2 ^ pad = M :=
          hNval ▸ Nat.div_mul_cancel (Nat.dvd_of_mod_eq_zero hzero)
        show (toDigits 32 (b32CharCount p.length)
          (fromDigits 256 p * 2 ^ (5 * b32CharCount p.length - 8 * p.length))).map
            valToChar = s
        rw [hpade, hback, hcc, ← hlen, hMdef, toDigits_fromDigits 32 ds hds32, hmap]
      case isFalse => simp at h
  · rw [base32Decode, if_neg hlt] at h; simp at h

theorem crcBytes_lt (c : Nat) : ∀ x ∈ crcBytes c, x < 256 := by
  intro x hx
  simp only [crcBytes, List.mem_cons, List.mem_singleton] at hx
  rcases hx with hx | hx | hx <;> first
    | (subst hx; exact Nat.mod_lt _ (by norm_num))
    | simp at hx

theorem strkeyDecode_encode (ver : Nat) (data : List Nat) (hver : ver < 256)
    (hdata : ∀ x ∈ data, x < 256) :
    strkeyDecode (strkeyEncode ver data) = some (ver, data) := by
  have hbytes : ∀ x ∈ (ver :: data) ++ crcBytes (crc16 (ver :: data)),
      x < 256 := by
    intro x hx
    rcases List.mem_append.mp hx with hx | hx
    · rcases List.mem_cons.mp hx with hx | hx
      · exact hx ▸ hver
      · exact hdata x hx
    · exact crcBytes_lt _ x hx
  unfold strkeyEncode strkeyDecode
  rw [base32Decode_encode _ hbytes, Option.some_bind]
  have hlen : (data ++ crcBytes (crc16 (ver :: data))).length = data.length + 2 := by
    simp [crcBytes]
  have hsub : (data ++ crcBytes (crc16 (ver :: data))).length - 2 = data.length := by
    omega
  show (if 2 ≤ (data ++ crcBytes (crc16 (ver :: data))).length then
      if (data ++ crcBytes (crc16 (ver :: data))).drop
          ((data ++ crcBytes (crc16 (ver :: data))).length - 2) =
          crcBytes (crc16 (ver :: (data ++ crcBytes (crc16 (ver :: data))).take
            ((data ++ crcBytes (crc16 (ver :: data))).length - 2))) then
        some (ver, (data ++ crcBytes (crc16 (ver :: data))).take
          ((data ++ crcBytes (crc16 (ver :: data))).length - 2))
      else none
    else none) = some (ver, data)
  rw [hsub, List.take_left data _, List.drop_left data _]
  rw [if_pos (by omega), if_pos rfl]

theorem strkeyEncode_decode (s : List Char) (ver : Nat) (data : List Nat)
    (h : strkeyDecode s = some (ver, data)) : strkeyEncode ver data = s := by
  unfold strkeyDecode at h
  match hb : base32Decode s with
  | none => rw [hb] at h; simp at h
  | some bytes =>
    rw [hb, Option.some_bind] at h
    match bytes with
    | [] => simp at h
    | v :: rest =>
      have h3 : (if 2 ≤ rest.length then
          if rest.drop (rest.length - 2) =
              crcBytes (crc16 (v :: rest.take (rest.length - 2))) then
            some (v, rest.take (rest.length - 2))
          else none
        else none) = some (ver, data) := h
      by_cases hlen2 : 2 ≤ rest.length
      · rw [if_pos hlen2] at h3
        by_cases hck : rest.drop (rest.length - 2) =
            crcBytes (crc16 (v :: rest.take (rest.length - 2)))
        · rw [if_pos hck] at h3
          have hv : v = ver ∧ rest.take (rest.length - 2) = data := by
            have := Option.some.inj h3
            exact ⟨congrArg Prod.fst this, congrArg Prod.snd this⟩
          have hrest : v :: rest = (ver :: data) ++ crcBytes (crc16 (ver :: data)) := by
            rw [← hv.1, ← hv.2]
            have h2 : rest = rest.take (rest.length - 2) ++ rest.drop (rest.length - 2) :=
              (List.take_append_drop _ rest).symm
            rw [hck] at h2
            rw [List.cons_append, ← h2]
          unfold strkeyEncode
          rw [← hrest]
          exact base32Encode_decode s (v :: rest) hb
        · rw [if_neg hck] at h3; simp at h3
      · rw [if_neg hlen2] at h3; simp at h3

/-- Payload bytes produced by a successful strkey decode are bytes. -/
theorem strkeyDecode_bytes_lt (s : List Char) (ver : Nat) (data : List Nat)
    (h : strkeyDecode s = some (ver, data)) :
    ver < 256 ∧ ∀ x ∈ data, x < 256 := by
  unfold strkeyDecode at h
  match hb : base32Decode s with
  | none => rw [hb] at h; simp at h
  | some bytes =>
    rw [hb, Option.some_bind] at h
    have hlt : ∀ x ∈ bytes, x < 256 := by
      unfold base32Decode at hb
      by_cases hc : 5 * s.length % 8 < 5
      · rw [if_pos hc] at hb
        match hmo : mapOption charToVal s with
        | none => rw [hmo] at hb; simp at hb
        | some ds =>
          rw [hmo, Option.some_bind] at hb
          by_cases hz : fromDigits 32 ds % 2 ^ (5 * s.length % 8) = 0
          · rw [if_pos hz] at hb
            have := Option.some.inj hb
            rw [← this]
            exact toDigits_lt _ _ _ (by norm_num)
          · rw [if_neg hz] at hb; simp at hb
      · rw [if_neg hc] at hb; simp at hb
    match bytes with
    | [] => simp at h
    | v :: rest =>
      have h3 : (if 2 ≤ rest.length then
          if rest.drop (rest.length - 2) =
              crcBytes (crc16 (v :: rest.take (rest.length - 2))) then
            some (v, rest.take (rest.length - 2))
          else none
        else none) = some (ver, data) := h
      by_cases hlen2 : 2 ≤ rest.length
      · rw [if_pos hlen2] at h3
        by_cases hck : rest.drop (rest.length - 2) =
            crcBytes (crc16 (v :: rest.take (rest.length - 2)))
        · rw [if_pos hck] at h3
          have hv : v = ver ∧ rest.take (rest.length - 2) = data := by
            have := Option.some.inj h3
            exact ⟨congrArg Prod.fst this, congrArg Prod.snd this⟩
          constructor
          · exact hv.1 ▸ hlt v (by simp)
          · intro x hx
            rw [← hv.2] at hx
            exact hlt x (List.mem_cons_of_mem v (List.take_subset _ rest hx))
        · rw [if_neg hck] at h3; simp at h3
      · rw [if_neg hlen2] at h3; simp at h3

theorem decodeCheck_encodeCheck (ver : Nat) (data : List Nat) (hver : ver < 256)
    (hdata : ∀ x ∈ data, x < 256) :
    decodeCheck (encodeCheck ver data) = some (ver, data) := by
  unfold decodeCheck encodeCheck
  exact strkeyDecode_encode ver data hver hdata

theorem encodeCheck_decodeCheck (s : String) (ver : Nat) (data : List Nat)
    (h : decodeCheck s = some (ver, data)) : encodeCheck ver data = s := by
  unfold decodeCheck at h
  unfold encodeCheck
  rw [strkeyEncode_decode s.data ver data h]

theorem publicKeyFromString_toString (pk : List Nat) (h32 : pk.length = 32)
    (hb : ∀ x ∈ pk, x < 256) :
    publicKeyFromString (publicKeyToString pk) = some pk := by
  unfold publicKeyFromString publicKeyToString
  rw [decodeCheck_encodeCheck 48 pk (by norm_num) hb]
  simp [h32]

theorem muxedFromString_toString (pk : List Nat) (id : Nat)
    (h32 : pk.length = 32) (hb : ∀ x ∈ pk, x < 256) (hid : id < 2 ^ 64) :
    muxedFromString (muxedToString pk id) = some (pk, id) := by
  unfold muxedFromString muxedToString
  have hdata : ∀ x ∈ pk ++ toDigits 256 8 id, x < 256 := by
    intro x hx
    rcases List.mem_append.mp hx with hx | hx
    · exact hb x hx
    · exact toDigits_lt 256 8 id (by norm_num) x hx
  rw [decodeCheck_encodeCheck 96 _ (by norm_num) hdata]
  have hlen : (pk ++ toDigits 256 8 id).length = 40 := by
    simp [toDigits_length, h32]
  have htake : (pk ++ toDigits 256 8 id).take 32 = pk := by
    rw [← h32]; exact List.take_left pk _
  have hdrop : (pk ++ toDigits 256 8 id).drop 32 = toDigits 256 8 id := by
    rw [← h32]; exact List.drop_left pk _
  simp only [if_pos (And.intro rfl hlen)]
  rw [htake, hdrop, fromDigits_toDigits]
  rw [show (256 : Nat) ^ 8 = 2 ^ 64 by norm_num, Nat.mod_eq_of_lt hid]
  simp [hlen]

theorem muxedFromString_of_pub (pk : List Nat) (hb : ∀ x ∈ pk, x < 256) :
    muxedFromString (publicKeyToString pk) = none := by
  unfold muxedFromString publicKeyToString
  rw [decodeCheck_encodeCheck 48 pk (by norm_num) hb]
  simp

theorem publicKeyFromString_of_muxed (pk : List Nat) (id : Nat)
    (hb : ∀ x ∈ pk ++ toDigits 256 8 id, x < 256) :
    publicKeyFromString (muxedToString pk id) = none := by
  unfold publicKeyFromString muxedToString
  rw [decodeCheck_encodeCheck 96 _ (by norm_num) hb]
  simp

theorem publicKeyFromString_inv (s : String) (pk : List Nat)
    (h : publicKeyFromString s = some pk) : publicKeyToString pk = s := by
  unfold publicKeyFromString at h
  match hdc : decodeCheck s with
  | none => rw [hdc] at h; simp at h
  | some vd =>
    rw [hdc] at h
    have h4 : (if vd.1 = 48 ∧ vd.2.length = 32 then some vd.2 else none) =
        some pk := h
    by_cases hcond : vd.1 = 48 ∧ vd.2.length = 32
    · rw [if_pos hcond] at h4
      have hpk : vd.2 = pk := Option.some.inj h4
      have hvd : vd = (48, vd.2) := by rw [← hcond.1]
      rw [hvd] at hdc
      unfold publicKeyToString
      rw [← hpk]
      exact encodeCheck_decodeCheck s 48 vd.2 hdc
    · rw [if_neg hcond] at h4; simp at h4

theorem muxedFromString_inv (s : String) (pk : List Nat) (id : Nat)
    (h : muxedFromString s = some (pk, id)) : muxedToString pk id = s := by
  unfold muxedFromString at h
  match hdc : decodeCheck s with
  | none => rw [hdc] at h; simp at h
  | some vd =>
    rw [hdc] at h
    have h4 : (if vd.1 = 96 ∧ vd.2.length = 40 then
        some (vd.2.take 32, fromDigits 256 (vd.2.drop 32)) else none) =
        some (pk, id) := h
    by_cases hcond : vd.1 = 96 ∧ vd.2.length = 40
    · rw [if_pos hcond] at h4
      obtain ⟨hc1, hc2⟩ := hcond
      have hx := Option.some.inj h4
      have hpk : vd.2.take 32 = pk := congrArg Prod.fst hx
      have hid : fromDigits 256 (vd.2.drop 32) = id := congrArg Prod.snd hx
      have hbytes : ∀ x ∈ vd.2, x < 256 :=
        (strkeyDecode_bytes_lt s.data vd.1 vd.2 hdc).2
      have hdl : (vd.2.drop 32).length = 8 := by
        rw [List.length_drop]; omega
      have hdigits : toDigits 256 8 (fromDigits 256 (vd.2.drop 32)) =
          vd.2.drop 32 := by
        have h9 := toDigits_fromDigits 256 (vd.2.drop 32)
          (fun x hx => hbytes x (List.drop_subset 32 vd.2 hx))
        rwa [hdl] at h9
      unfold muxedToString
      rw [← hpk, ← hid, hdigits, List.take_append_drop]
      have hvd : vd = (96, vd.2) := by rw [← hc1]
      rw [hvd] at hdc
      exact encodeCheck_decodeCheck s 96 vd.2 hdc
    · rw [if_neg hcond] at h4; simp at h4

/-- C4: Address codec round-trip: for every well-formed binary Address
value (both variants), decoding the text produced by encoding it
reproduces the original Address; and for every text a decode accepts,
encoding the decoded Address reproduces the original text. -/
theorem address_codec_roundtrip :
    (∀ m : xdr.MuxedAccount, m.wf →
      decode_address_to_muxed_account_fix_for_g_address
        (encode_muxed_account_to_address m) = some m) ∧
    (∀ (s : String) (m : xdr.MuxedAccount),
      decode_address_to_muxed_account_fix_for_g_address s = some m →
      encode_muxed_account_to_address m = s) ∧
    (∀ m : xdr.MuxedAccount,
      _encode_muxed_account_fully_to_address m =
        encode_muxed_account_to_address m) := by
  refine ⟨?_, ?_, fun m => by cases m <;> rfl⟩
  · intro m hm
    match m with
    | .Ed25519 pk =>
      obtain ⟨h32, hb⟩ := hm
      have hnone := muxedFromString_of_pub pk hb
      unfold encode_muxed_account_to_address
        decode_address_to_muxed_account_fix_for_g_address
      rw [hnone]
      rw [if_neg (by simp : ¬((none : Option (List Nat × Nat)).isSome = true))]
      unfold xdr.MuxedAccount.fromStr
      rw [publicKeyFromString_toString pk h32 hb]
    | .MuxedEd25519 id pk =>
      obtain ⟨⟨h32, hb⟩, hid⟩ := hm
      have hsome := muxedFromString_toString pk id h32 hb hid
      unfold encode_muxed_account_to_address
        decode_address_to_muxed_account_fix_for_g_address
        decode_address_fully_to_muxed_account
      rw [hsome]
      simp
  · intro s m h
    unfold decode_address_to_muxed_account_fix_for_g_address at h
    by_cases hmx : (muxedFromString s).isSome = true
    · rw [if_pos hmx] at h
      unfold decode_address_fully_to_muxed_account at h
      match hms : muxedFromString s with
      | none => rw [hms] at hmx; simp at hmx
      | some x =>
        rw [hms] at h
        have h3 : some (xdr.MuxedAccount.MuxedEd25519 x.2 x.1) = some m := h
        rw [← Option.some.inj h3]
        show muxedToString x.1 x.2 = s
        exact muxedFromString_inv s x.1 x.2 hms
    · rw [if_neg hmx] at h
      unfold xdr.MuxedAccount.fromStr at h
      match hpk : publicKeyFromString s with
      | some pk =>
        rw [hpk] at h
        have h3 : some (xdr.MuxedAccount.Ed25519 pk) = some m := h
        rw [← Option.some.inj h3]
        show publicKeyToString pk = s
        exact publicKeyFromString_inv s pk hpk
      | none =>
        rw [hpk] at h
        have hmn : muxedFromString s = none :=
          Option.not_isSome_iff_eq_none.mp (by simpa using hmx)
        rw [hmn] at h
        exact Option.noConfusion h

/-! ## Inversion lemmas for `build` -/
/-- Everything a successful `build` reveals about the builder and the
returned transaction. -/
theorem build_success_inv (b : TransactionBuilder) (tx : Transaction)
    (h : b.buildResult = some tx) :
    ∃ acct base_fee ops np,
      b.source = some acct ∧ b.fee = some base_fee ∧
      b.operations = some ops ∧ b.network_passphrase = some np ∧
      base_fee * ops.length < 2 ^ 32 ∧ ops.length ≤ 100 ∧
      tx.tx = some ⟨xdr.MuxedAccount.Ed25519
          (((hexEncode (stringBytes acct.account_id)).take 32).map Char.toNat),
        base_fee * ops.length, 1, xdr.Preconditions.None, xdr.Memo.None,
        ops, xdr.TransactionExt.V0⟩ ∧
      tx.network_passphrase = np ∧
      tx.fee = base_fee * ops.length ∧
      tx.memo = none ∧
      tx.sequence = toString (acct.sequence + 1) ∧
      tx.source = acct.account_id ∧
      tx.time_bounds = b.time_bounds ∧
      tx.min_account_sequence = some ("0") ∧
      tx.operations = b.operations := by
  unfold TransactionBuilder.buildResult TransactionBuilder.build at h
  cases hsrc : b.source with
  | none => rw [hsrc] at h; simp at h
  | some acct =>
    simp only [hsrc] at h
    cases hfee : b.fee with
    | none => rw [hfee] at h; simp at h
    | some base_fee =>
      simp only [hfee] at h
      cases hops : b.operations with
      | none => rw [hops] at h; simp at h
      | some ops =>
        simp only [hops] at h
        by_cases h32 : ops.length ≥ 2 ^ 32
        · rw [if_pos h32] at h; simp at h
        · rw [if_neg h32] at h
          by_cases hhex : (hexEncode (stringBytes acct.account_id)).length < 32
          · rw [if_pos hhex] at h; simp at h
          · rw [if_neg hhex] at h
            by_cases hmul : base_fee * ops.length < 2 ^ 32
            · rw [if_pos hmul] at h
              simp only [] at h
              by_cases h100 : ops.length > 100
              · rw [if_pos h100] at h; simp at h
              · rw [if_neg h100] at h
                cases hnp : b.network_passphrase with
                | none => rw [hnp] at h; simp at h
                | some np =>
                  simp only [hnp] at h
                  refine ⟨acct, base_fee, ops, np, rfl, rfl, rfl, rfl,
                    hmul, by omega, ?_⟩
                  obtain rfl := (Option.some.inj h).symm
                  exact ⟨rfl, rfl, rfl, rfl, rfl, rfl, rfl, rfl, rfl⟩
            · rw [if_neg hmul] at h; simp at h

/-- What `build` does to the borrowed source account: nothing when no
source is set (the panic precedes the increment), and exactly one
increment — on success and on every later panic alike — when one is. -/
theorem build_account_state (b : TransactionBuilder) :
    (b.source = none → b.accountAfterBuild = none ∧ b.buildResult = none) ∧
    (∀ acct, b.source = some acct →
      b.accountAfterBuild = some (acct.increment_sequence_number)) := by
  constructor
  · intro h
    unfold TransactionBuilder.accountAfterBuild TransactionBuilder.buildResult
      TransactionBuilder.build
    rw [h]
    exact ⟨rfl, rfl⟩
  · intro acct h
    unfold TransactionBuilder.accountAfterBuild TransactionBuilder.build
    simp only [h]
    repeat' split
    all_goals rfl

/-! ## Claim theorems: the transaction builder -/
/-- C1: for every valid Account with sequence value S, a successful
`build()` returns a Transaction whose sequence is the decimal text of
S + 1 (computed with arbitrary-precision `Nat` arithmetic, with no
64-bit wraparound anywhere in the model), leaves the Account's stored
sequence at S + 1, and a second `build()` against the updated Account
yields S + 2, not a repeat. -/
theorem build_sequence_spec (b : TransactionBuilder) (acct : Account)
    (tx : Transaction) (hsrc : b.source = some acct)
    (hok : b.buildResult = some tx) :
    tx.sequence = toString (acct.sequence + 1) ∧
    b.accountAfterBuild = some { acct with sequence := acct.sequence + 1 } ∧
    (∀ (b2 : TransactionBuilder) (tx2 : Transaction),
      b2.source = b.accountAfterBuild → b2.buildResult = some tx2 →
      tx2.sequence = toString (acct.sequence + 2)) := by
  obtain ⟨acct', bf, ops, np, h1, h2, h3, h4, h5, h6, h7, h8, h9, h10,
    h11, h12, h13, h14, h15⟩ := build_success_inv b tx hok
  have hacct : acct' = acct := by
    rw [hsrc] at h1; exact (Option.some.inj h1).symm
  subst hacct
  have hstate := (build_account_state b).2 acct' hsrc
  refine ⟨h11, hstate, ?_⟩
  intro b2 tx2 hs2 hok2
  obtain ⟨acct2, bf2, ops2, np2, g1, g2, g3, g4, g5, g6, g7, g8, g9, g10,
    g11, g12, g13, g14, g15⟩ := build_success_inv b2 tx2 hok2
  rw [hstate] at hs2
  rw [hs2] at g1
  have hacct2 : acct2 = acct'.increment_sequence_number :=
    (Option.some.inj g1).symm
  rw [g11, hacct2]
  have hseqval : acct'.increment_sequence_number.sequence =
      acct'.sequence + 1 := rfl
  rw [hseqval]

/-- C1 witness: a concrete one-operation builder over an account at
sequence 20 builds successfully, yielding sequence "21" and storing 21
back into the account. -/
theorem build_sequence_spec_witness :
    txDemo.sequence = toString (acctDemo.sequence + 1) ∧
    builderDemo.accountAfterBuild =
      some { acctDemo with sequence := acctDemo.sequence + 1 } := by
  have h := build_sequence_spec builderDemo acctDemo txDemo (by decide) (by decide)
  exact ⟨h.1, h.2.1⟩

/-- C2: with base fee f and operation list `ops`, every successful
`build()` carries total fee `f * ops.length` (in both the wrapper and
the inner record), and whenever `f * ops.length` reaches `2 ^ 32` — the
`u32` fee representation's bound — `build()` fails instead of wrapping
or truncating. (The crate has no separate explicit-total override: the
`fee` setter stores the base fee that this product starts from.) -/
theorem build_fee_spec (b : TransactionBuilder) (f : Nat)
    (ops : List xdr.Operation) (hf : b.fee = some f)
    (hops : b.operations = some ops) :
    (∀ tx, b.buildResult = some tx →
      tx.fee = f * ops.length ∧
      ∀ t, tx.tx = some t → t.fee = f * ops.length) ∧
    (2 ^ 32 ≤ f * ops.length → b.buildResult = none) := by
  constructor
  · intro tx hok
    obtain ⟨acct', bf, ops', np, h1, h2, h3, h4, h5, h6, h7, h8, h9, h10,
      h11, h12, h13, h14, h15⟩ := build_success_inv b tx hok
    have hbf : bf = f := by
      rw [hf] at h2; exact (Option.some.inj h2).symm
    have hops2 : ops' = ops := by
      rw [hops] at h3; exact (Option.some.inj h3).symm
    subst hbf; subst hops2
    refine ⟨h9, ?_⟩
    intro t ht
    rw [h7] at ht
    rw [← Option.some.inj ht]
  · intro hover
    cases hres : b.buildResult with
    | none => rfl
    | some tx =>
      obtain ⟨acct', bf, ops', np, h1, h2, h3, h4, h5, h6, h7, h8, h9, h10,
        h11, h12, h13, h14, h15⟩ := build_success_inv b tx hres
      have hbf : bf = f := by
        rw [hf] at h2; exact (Option.some.inj h2).symm
      have hops2 : ops' = ops := by
        rw [hops] at h3; exact (Option.some.inj h3).symm
      subst hbf; subst hops2
      omega

/-- C2 witness: two operations at base fee 100 build with total fee 200
(and vacuously satisfy the overflow arm at this instance). -/
theorem build_fee_spec_witness :
    (∀ tx, builderTwoOps.buildResult = some tx →
      tx.fee = 100 * 2 ∧ ∀ t, tx.tx = some t → t.fee = 100 * 2) ∧
    (2 ^ 32 ≤ 100 * 2 → builderTwoOps.buildResult = none) := by
  have h := build_fee_spec builderTwoOps 100 [opDemo, opDemo]
    (by decide) (by decide)
  exact h

/-- C3 counterexample: a concrete builder whose `build()` fails (fee
`2 ^ 31` times two operations overflows `u32`) nevertheless leaves the
source account's stored sequence advanced from 5 to 6 — the claim's
"unchanged on every failure" is false on the code. -/
theorem build_failure_account_counterexample :
    builderOverflow.buildResult = none ∧
    builderOverflow.source = some acctOverflow ∧
    acctOverflow.sequence = 5 ∧
    builderOverflow.accountAfterBuild =
      some { acctOverflow with sequence := 6 } ∧
    builderOverflow.accountAfterBuild ≠ some acctOverflow := by decide

/-- C3 (amended): a failing `build()` leaves the Account's stored
sequence unchanged only when the failure is the missing-source panic,
which precedes the increment; every failure after the source check
(missing fee, fee overflow, and the other later panic points) leaves
the Account already incremented to S + 1. -/
theorem build_failure_account_effect (b : TransactionBuilder) :
    (b.source = none → b.buildResult = none ∧ b.accountAfterBuild = none) ∧
    (∀ acct, b.source = some acct → b.buildResult = none →
      b.accountAfterBuild = some { acct with sequence := acct.sequence + 1 }) := by
  constructor
  · intro h
    exact ⟨((build_account_state b).1 h).2, ((build_account_state b).1 h).1⟩
  · intro acct h _
    exact (build_account_state b).2 acct h

/-- C3 witness: a builder with no fee set fails, and the account it
held moved from sequence 7 to 8. -/
theorem build_failure_account_effect_witness :
    builderNoFee.buildResult = none ∧
    builderNoFee.accountAfterBuild =
      some { acctNoFee with sequence := acctNoFee.sequence + 1 } := by
  have h := build_failure_account_effect builderNoFee
  exact ⟨by decide, h.2 acctNoFee (by decide) (by decide)⟩

/-- C9: in every successful `build()`, the embedded inner XDR record has
`seq_num` fixed at 1, `memo` fixed at `Memo::None` and preconditions
fixed at `Preconditions::None`, whatever the account's sequence and
whatever memo or time bounds the builder holds; the incremented
sequence and the time bounds surface only in the wrapper's own
fields. -/
theorem build_inner_record_constants (b : TransactionBuilder)
    (tx : Transaction) (t : xdr.Transaction)
    (hok : b.buildResult = some tx) (ht : tx.tx = some t) :
    t.seq_num = 1 ∧ t.memo = xdr.Memo.None ∧
    t.cond = xdr.Preconditions.None ∧
    (∀ acct, b.source = some acct →
      tx.sequence = toString (acct.sequence + 1)) ∧
    tx.time_bounds = b.time_bounds := by
  obtain ⟨acct', bf, ops', np, h1, h2, h3, h4, h5, h6, h7, h8, h9, h10,
    h11, h12, h13, h14, h15⟩ := build_success_inv b tx hok
  rw [h7] at ht
  obtain rfl := (Option.some.inj ht).symm
  refine ⟨rfl, rfl, rfl, ?_, h13⟩
  intro acct hacct
  rw [hacct] at h1
  rw [h11, Option.some.inj h1]

/-- C9 witness: a builder carrying both a memo and time bounds still
emits an inner record with sequence 1, no memo and no preconditions;
the bounds surface in the wrapper's own field. -/
theorem build_inner_record_constants_witness :
    innerNine.seq_num = 1 ∧ innerNine.memo = xdr.Memo.None ∧
    innerNine.cond = xdr.Preconditions.None ∧
    builderNine.memo = some (xdr.Memo.Id 100) ∧
    txNine.time_bounds = some ⟨5, 700⟩ := by
  have h := build_inner_record_constants builderNine txNine innerNine
    (by decide) (by decide)
  exact ⟨h.1, h.2.1, h.2.2.1, by decide, by rw [h.2.2.2.2]; decide⟩

/-- C7: `set_timeout` errors when the builder's time bounds already
carry a non-zero `max_time` (that check comes first), errors on
negative seconds, sets `max_time` to exactly `now + seconds` for
positive seconds while preserving any existing `min_time`, and for zero
seconds succeeds with the "no upper bound" bounds (0, 0). -/
theorem set_timeout_spec (b : TransactionBuilder) (now : Nat) (sec : Int) :
    (∀ tb, b.time_bounds = some tb → 0 < tb.max_time →
      b.set_timeout now sec = Except.error
        ("TimeBounds.max_time has been already set - setting timeout would overwrite it.")) ∧
    ((∀ tb, b.time_bounds = some tb → tb.max_time = 0) → sec < 0 →
      b.set_timeout now sec = Except.error ("timeout cannot be negative")) ∧
    ((∀ tb, b.time_bounds = some tb → tb.max_time = 0) → 0 < sec →
      b.set_timeout now sec = Except.ok { b with
        time_bounds := some (xdr.TimeBounds.mk
          ((b.time_bounds.map fun tb => tb.min_time).getD 0)
          (now + sec.toNat)) }) ∧
    ((∀ tb, b.time_bounds = some tb → tb.max_time = 0) → sec = 0 →
      b.set_timeout now sec = Except.ok { b with
        time_bounds := some (xdr.TimeBounds.mk 0 0) }) := by
  refine ⟨?_, ?_, ?_, ?_⟩
  · intro tb htb hpos
    unfold TransactionBuilder.set_timeout
    simp only [htb]
    rw [if_pos hpos]
  · intro hmax hneg
    unfold TransactionBuilder.set_timeout setTimeoutTail
    cases htb : b.time_bounds with
    | none =>
      simp only [htb]
      rw [if_pos hneg]
    | some tb =>
      simp only [htb]
      rw [if_neg (by have := hmax tb htb; omega), if_pos hneg]
  · intro hmax hposs
    unfold TransactionBuilder.set_timeout setTimeoutTail
    cases htb : b.time_bounds with
    | none =>
      simp only [htb]
      rw [if_neg (by omega), if_pos hposs]
    | some tb =>
      simp only [htb]
      rw [if_neg (by have := hmax tb htb; omega), if_neg (by omega),
        if_pos hposs]
  · intro hmax hzero
    subst hzero
    unfold TransactionBuilder.set_timeout setTimeoutTail
    cases htb : b.time_bounds with
    | none =>
      simp only [htb]
      rw [if_neg (by omega), if_neg (by omega)]
    | some tb =>
      simp only [htb]
      rw [if_neg (by have := hmax tb htb; omega), if_neg (by omega),
        if_neg (by omega)]

/-- C7 witness: with bounds already carrying max time 1455297545,
`set_timeout` is refused; a builder with no bounds and timeout 0 gets
the (0, 0) bounds. -/
theorem set_timeout_spec_witness :
    builderWithBounds.set_timeout 1700000000 300 = Except.error
      ("TimeBounds.max_time has been already set - setting timeout would overwrite it.") ∧
    builderNoFee.set_timeout 1700000000 0 = Except.ok { builderNoFee with
      time_bounds := some (xdr.TimeBounds.mk 0 0) } := by
  constructor
  · exact (set_timeout_spec builderWithBounds 1700000000 300).1
      ⟨1455287522, 1455297545⟩ (by decide) (by decide)
  · exact (set_timeout_spec builderNoFee 1700000000 0).2.2.2
      (fun tb htb => by
        rw [(by decide : builderNoFee.time_bounds =
          (none : Option xdr.TimeBounds))] at htb
        exact Option.noConfusion htb)
      rfl

/-- Single-step unfolding of `get_liquidity_pool_id` at the one
parameter constructor. -/
theorem lp_id_unfold (hash : List Nat → List Nat) (t : String)
    (px : LiquidityPoolConstantProductParameters) :
    LiquidityPool.get_liquidity_pool_id hash t
      (.LiquidityPoolConstantProduct px) =
      if t ≠ "constant_product" then
        Except.error ("liquidityPoolType is invalid")
      else if px.fee ≠ 30 then
        Except.error ("fee is invalid")
      else if Asset.compare (Asset.from_operation px.asset_a)
          (Asset.from_operation px.asset_b) ≠ -1 then
        Except.error ("Assets are not in lexicographic order")
      else
        Except.ok (hash (liquidityPoolTypeXdr ++
          lpConstantProductParamsXdr px)) := rfl

/-- C5: `get_liquidity_pool_id` checks its preconditions in the order
pool type, then fee = 30, then strict canonical asset order; the first
failing check determines the error, and the three error messages are
pairwise distinct. -/
theorem get_liquidity_pool_id_check_order (hash : List Nat → List Nat)
    (t : String) (px : LiquidityPoolConstantProductParameters) :
    (t ≠ "constant_product" →
      LiquidityPool.get_liquidity_pool_id hash t
        (.LiquidityPoolConstantProduct px) =
        Except.error ("liquidityPoolType is invalid")) ∧
    (t = "constant_product" → px.fee ≠ 30 →
      LiquidityPool.get_liquidity_pool_id hash t
        (.LiquidityPoolConstantProduct px) =
        Except.error ("fee is invalid")) ∧
    (t = "constant_product" → px.fee = 30 →
      Asset.compare (Asset.from_operation px.asset_a)
        (Asset.from_operation px.asset_b) ≠ -1 →
      LiquidityPool.get_liquidity_pool_id hash t
        (.LiquidityPoolConstantProduct px) =
        Except.error ("Assets are not in lexicographic order")) ∧
    (("liquidityPoolType is invalid" : String) ≠ "fee is invalid" ∧
      ("liquidityPoolType is invalid" : String) ≠
        "Assets are not in lexicographic order" ∧
      ("fee is invalid" : String) ≠
        "Assets are not in lexicographic order") := by
  refine ⟨?_, ?_, ?_, by decide⟩
  · intro h
    rw [lp_id_unfold, if_pos h]
  · intro h1 h2
    rw [lp_id_unfold, if_neg (fun hc => hc h1), if_pos h2]
  · intro h1 h2 h3
    rw [lp_id_unfold, if_neg (fun hc => hc h1),
      if_neg (fun hc => hc h2), if_pos h3]

/-- C5 witness: an unrecognized pool type is refused with the
pool-type error, which differs from the fee error. -/
theorem get_liquidity_pool_id_check_order_witness :
    LiquidityPool.get_liquidity_pool_id id ("not_a_pool")
      (.LiquidityPoolConstantProduct pxDemo) =
      Except.error ("liquidityPoolType is invalid") ∧
    ("liquidityPoolType is invalid" : String) ≠ "fee is invalid" := by
  have h := get_liquidity_pool_id_check_order id ("not_a_pool") pxDemo
  exact ⟨h.1 (by decide), h.2.2.2.1⟩

/-- C6: on success `get_liquidity_pool_id` returns exactly the hash of
the pool-type discriminant bytes followed by the parameter-record bytes
(asset A, then asset B, then the int32 fee), in that byte order; as a
pure function of its arguments it returns the same identifier for the
same inputs on every call. -/
theorem get_liquidity_pool_id_success_bytes (hash : List Nat → List Nat)
    (px : LiquidityPoolConstantProductParameters) (hfee : px.fee = 30)
    (hord : Asset.compare (Asset.from_operation px.asset_a)
      (Asset.from_operation px.asset_b) = -1) :
    LiquidityPool.get_liquidity_pool_id hash ("constant_product")
      (.LiquidityPoolConstantProduct px) =
      Except.ok (hash (liquidityPoolTypeXdr ++
        (assetToXdr px.asset_a ++ assetToXdr px.asset_b ++
          int32ToBytes px.fee))) := by
  rw [lp_id_unfold, if_neg (fun hc => hc rfl),
    if_neg (fun hc => hc hfee), if_neg (fun hc => hc hord)]
  rfl

/-- C6 witness: native against an alphanum-4 asset at fee 30 derives
the identifier from the concatenated discriminant and parameter
bytes. -/
theorem get_liquidity_pool_id_success_bytes_witness :
    LiquidityPool.get_liquidity_pool_id id ("constant_product")
      (.LiquidityPoolConstantProduct pxDemo) =
      Except.ok (id (liquidityPoolTypeXdr ++
        (assetToXdr pxDemo.asset_a ++ assetToXdr pxDemo.asset_b ++
          int32ToBytes pxDemo.fee))) :=
  get_liquidity_pool_id_success_bytes id pxDemo (by decide) (by decide)

theorem zeroKey_bytes : ∀ x ∈ List.replicate 32 (0 : Nat), x < 256 := by
  intro x hx
  rw [List.eq_of_mem_replicate hx]
  norm_num

theorem strkey_fromString_gAddrZero :
    Strkey.fromString gAddrZero =
      some (Strkey.PublicKeyEd25519 (List.replicate 32 0)) := by
  unfold Strkey.fromString gAddrZero
  rw [publicKeyFromString_toString _ (by simp) zeroKey_bytes]

theorem mAddr_payload_bytes :
    ∀ x ∈ List.replicate 32 (0 : Nat) ++ toDigits 256 8 7, x < 256 := by
  intro x hx
  rcases List.mem_append.mp hx with hx | hx
  · exact zeroKey_bytes x hx
  · exact toDigits_lt 256 8 7 (by norm_num) x hx

theorem strkey_fromString_mAddr :
    Strkey.fromString (muxedToString (List.replicate 32 0) 7) =
      some (Strkey.MuxedAccountEd25519 (List.replicate 32 0) 7) := by
  unfold Strkey.fromString
  rw [publicKeyFromString_of_muxed _ _ mAddr_payload_bytes]
  rw [muxedFromString_toString _ _ (by simp) zeroKey_bytes (by norm_num)]

theorem decode_fix_gAddrZero :
    decode_address_to_muxed_account_fix_for_g_address gAddrZero =
      some (xdr.MuxedAccount.Ed25519 (List.replicate 32 0)) := by
  unfold decode_address_to_muxed_account_fix_for_g_address gAddrZero
  rw [muxedFromString_of_pub _ zeroKey_bytes]
  rw [if_neg (by simp : ¬((none : Option (List Nat × Nat)).isSome = true))]
  unfold xdr.MuxedAccount.fromStr
  rw [publicKeyFromString_toString _ (by simp) zeroKey_bytes]

/-- C8 counterexample: the claim's "rejects negative starting balances"
is false on the code — a valid simple destination with starting balance
-5 is accepted and the -5 lands in the operation record. -/
theorem create_account_negative_balance_counterexample :
    Operation.create_account gAddrZero (-5) none =
      some (Except.ok ⟨none,
        xdr.OperationBody.CreateAccount ⟨List.replicate 32 0⟩ (-5)⟩) := by
  unfold Operation.create_account
  rw [strkey_fromString_gAddrZero]

/-- C8 (amended): `create_account` errors exactly when the destination
does not decode as the simple public-key strkey variant (muxed and
malformed destinations alike), and the starting balance is not
validated: whatever integer the caller supplies — negative included —
is copied into the operation record unexamined. -/
theorem create_account_destination_only_validation (destination : String)
    (balance : Int) (source : Option String) :
    ((∃ e, Operation.create_account destination balance source =
        some (Except.error e)) ↔
      ∀ pk, Strkey.fromString destination ≠
        some (Strkey.PublicKeyEd25519 pk)) ∧
    (∀ pk op, Strkey.fromString destination =
        some (Strkey.PublicKeyEd25519 pk) →
      Operation.create_account destination balance source =
        some (Except.ok op) →
      op.body = xdr.OperationBody.CreateAccount ⟨pk⟩ balance) := by
  constructor
  · constructor
    · rintro ⟨e, he⟩ pk hpk
      unfold Operation.create_account at he
      rw [hpk] at he
      have h2 : (match source with
        | none => some (Except.ok (⟨none,
            xdr.OperationBody.CreateAccount ⟨pk⟩ balance⟩ : xdr.Operation))
        | some s =>
          match decode_address_to_muxed_account_fix_for_g_address s with
          | some ma => some (Except.ok (⟨some ma,
              xdr.OperationBody.CreateAccount ⟨pk⟩ balance⟩ : xdr.Operation))
          | none => none) = some (Except.error e) := he
      cases source with
      | none => simp at h2
      | some s =>
        have h3 : (match decode_address_to_muxed_account_fix_for_g_address s with
          | some ma => some (Except.ok (⟨some ma,
              xdr.OperationBody.CreateAccount ⟨pk⟩ balance⟩ : xdr.Operation))
          | none => none) = some (Except.error e) := h2
        cases hd : decode_address_to_muxed_account_fix_for_g_address s with
        | none => rw [hd] at h3; simp at h3
        | some ma => rw [hd] at h3; simp at h3
    · intro hno
      unfold Operation.create_account
      cases hsk : Strkey.fromString destination with
      | none => exact ⟨"invalid destination", rfl⟩
      | some sk =>
        cases sk with
        | PublicKeyEd25519 pk => exact absurd hsk (hno pk)
        | MuxedAccountEd25519 pk id =>
          exact ⟨"destination is invalid", rfl⟩
  · intro pk op hpk hok
    unfold Operation.create_account at hok
    rw [hpk] at hok
    have h2 : (match source with
      | none => some (Except.ok (⟨none,
          xdr.OperationBody.CreateAccount ⟨pk⟩ balance⟩ : xdr.Operation))
      | some s =>
        match decode_address_to_muxed_account_fix_for_g_address s with
        | some ma => some (Except.ok (⟨some ma,
            xdr.OperationBody.CreateAccount ⟨pk⟩ balance⟩ : xdr.Operation))
        | none => none) = some (Except.ok op) := hok
    cases source with
    | none =>
      have h3 := Except.ok.inj (Option.some.inj h2)
      rw [← h3]
    | some s =>
      have h3 : (match decode_address_to_muxed_account_fix_for_g_address s with
        | some ma => some (Except.ok (⟨some ma,
            xdr.OperationBody.CreateAccount ⟨pk⟩ balance⟩ : xdr.Operation))
        | none => none) = some (Except.ok op) := h2
      cases hd : decode_address_to_muxed_account_fix_for_g_address s with
      | none => rw [hd] at h3; simp at h3
      | some ma =>
        rw [hd] at h3
        have h4 : some (Except.ok (⟨some ma,
            xdr.OperationBody.CreateAccount ⟨pk⟩ balance⟩ : xdr.Operation)) =
            some (Except.ok op) := h3
        have h5 := Except.ok.inj (Option.some.inj h4)
        rw [← h5]

/-- C8 (amended) witness: a muxed destination is refused; the zero-key
simple destination with balance -5 carries -5 into the record. -/
theorem create_account_destination_only_validation_witness :
    (∃ e, Operation.create_account
      (muxedToString (List.replicate 32 0) 7) 10 none =
        some (Except.error e)) ∧
    (∀ op, Operation.create_account gAddrZero (-5) none =
        some (Except.ok op) →
      op.body = xdr.OperationBody.CreateAccount ⟨List.replicate 32 0⟩
        (-5)) := by
  constructor
  · exact (create_account_destination_only_validation
      (muxedToString (List.replicate 32 0) 7) 10 none).1.mpr
      (fun pk h => by
        rw [strkey_fromString_mAddr] at h
        exact Strkey.noConfusion (Option.some.inj h))
  · exact fun op => (create_account_destination_only_validation gAddrZero
      (-5) none).2 (List.replicate 32 0) op strkey_fromString_gAddrZero

/-- C10: `account_merge` never returns its "destination is invalid"
error for any input — the error arm of its `match` is dead (the first
pattern is irrefutable) — so every call either returns `Ok` or panics
(`none`) inside address decoding; malformed destinations panic rather
than produce a returned `Err`. -/
theorem account_merge_error_unreachable (self : Operation)
    (destination : String) :
    (∀ e, self.account_merge destination ≠ some (Except.error e)) ∧
    (self.account_merge destination = none ↔
      decode_address_to_muxed_account_fix_for_g_address destination =
        none) ∧
    (∀ m, decode_address_to_muxed_account_fix_for_g_address destination =
        some m →
      self.account_merge destination = some (Except.ok
        ⟨self.source, xdr.OperationBody.AccountMerge m⟩)) := by
  cases hd : decode_address_to_muxed_account_fix_for_g_address destination with
  | none =>
    refine ⟨?_, ?_, ?_⟩
    · intro e
      simp [Operation.account_merge, hd]
    · simp [Operation.account_merge, hd]
    · intro m hm
      exact Option.noConfusion hm
  | some m =>
    refine ⟨?_, ?_, ?_⟩
    · intro e
      simp [Operation.account_merge, hd]
    · simp [Operation.account_merge, hd]
    · intro m2 hm
      obtain rfl := Option.some.inj hm
      simp [Operation.account_merge, hd]

/-- C4 witness: a concrete muxed value (zero key, id 7) survives the
encode-then-decode round trip. -/
theorem address_codec_roundtrip_witness :
    decode_address_to_muxed_account_fix_for_g_address
      (encode_muxed_account_to_address
        (xdr.MuxedAccount.MuxedEd25519 7 (List.replicate 32 0))) =
      some (xdr.MuxedAccount.MuxedEd25519 7 (List.replicate 32 0)) :=
  address_codec_roundtrip.1 _ ⟨⟨by simp, zeroKey_bytes⟩, by norm_num⟩

/-- C10 witness: a well-formed simple destination produces exactly the
`Ok` merge record. -/
theorem account_merge_error_unreachable_witness :
    Operation.account_merge ⟨none⟩ gAddrZero =
      some (Except.ok ⟨none, xdr.OperationBody.AccountMerge
        (xdr.MuxedAccount.Ed25519 (List.replicate 32 0))⟩) :=
  (account_merge_error_unreachable ⟨none⟩ gAddrZero).2.2 _
    decode_fix_gAddrZero

end StellarBase
